import Mathlib

/-!
Shallow embedding of the `rsvancara/linode-tools` reconciliation daemons:

* the UFW variant (`kube-ufw`, file `src/unnamed/part_000`), which regenerates
  `/etc/ufw/user.rules` from the cluster node list and reloads ufw, and
* the nginx variant (`src/cmd/kube-nginx/main.go`), which regenerates an
  nginx upstream file and reloads nginx.

Addresses are Go `net.IP` values obtained from `net.ParseIP`; the code only
ever compares and renders them through their canonical `String()` form, so an
address is modelled as either the nil IP (`ParseIP` failure, whose `String()`
is `"<nil>"`) or a parsed IPv4 address rendered in dotted-quad form.  The IPv6
branch of `net.ParseIP` (inputs whose first separator character is a colon) is
not modelled; theorems whose hypotheses touch parsing restrict themselves to
the modelled domain.

Files are modelled at the level the code observes them: the UFW renderer reads
a file as the list of lines produced by `bufio.Scanner`, and the writers are
modelled as functions from the previous file content (a character string) to
the new content.
-/

/-- Result of Go `net.ParseIP` as used by this program: either the nil IP
(parse failure) or a parsed IPv4 address `a.b.c.d` (each octet `0..255`). -/
inductive GoIP where
  | nil : GoIP
  | v4 (a b c d : Nat) : GoIP
deriving DecidableEq

/-- Canonical form `net.IP.String()`: the nil IP prints `"<nil>"`, a parsed
IPv4 address prints as a dotted quad. -/
def GoIP.string : GoIP → String
  | GoIP.nil => "<nil>"
  | GoIP.v4 a b c d =>
      toString a ++ "." ++ toString b ++ "." ++ toString c ++ "." ++ toString d

/-- Characters of a string up to (excluding) the first occurrence of `c`,
the whole string when `c` is absent. -/
def takeUntil (c : Char) : List Char → List Char
  | [] => []
  | x :: xs => if x = c then [] else x :: takeUntil c xs

/-- Go `strings.Split(s, "/")[0]`: the segment before the first slash. -/
def goSplitHead (s : String) : String := String.mk (takeUntil '/' s.data)

/-- Go `strings.Split` on a single-character separator (over characters). -/
def splitOnChar (c : Char) : List Char → List (List Char)
  | [] => [[]]
  | x :: xs =>
    if x = c then [] :: splitOnChar c xs
    else
      match splitOnChar c xs with
      | [] => [[x]]
      | y :: ys => (x :: y) :: ys

/-- One decimal field of a dotted-quad IPv4 address, per Go `net.ParseIP`:
one to three digits, no leading zero, value at most `255`. -/
def decOctet (cs : List Char) : Option Nat :=
  if cs = [] then none
  else if 3 < cs.length then none
  else if ¬ cs.all Char.isDigit then none
  else if 1 < cs.length ∧ cs.head? = some '0' then none
  else
    let n := cs.foldl (fun a ch => a * 10 + (ch.toNat - 48)) 0
    if n ≤ 255 then some n else none

/-- IPv4 branch of Go `net.ParseIP`: exactly four valid decimal fields
separated by dots, otherwise the nil IP. -/
def parseIPv4 (s : String) : GoIP :=
  match splitOnChar '.' s.data with
  | [a, b, c, d] =>
    match decOctet a, decOctet b, decOctet c, decOctet d with
    | some x, some y, some z, some w => GoIP.v4 x y z w
    | _, _, _, _ => GoIP.nil
  | _ => GoIP.nil

/-- First `'.'` or `':'` in a character list, if any — Go `net.ParseIP` scans
for the first of these to choose the IPv4 or IPv6 parser. -/
def firstSep : List Char → Option Char
  | [] => none
  | c :: rest => if c = '.' ∨ c = ':' then some c else firstSep rest

/-- Go `net.ParseIP`: the IPv4 parser when a `'.'` comes first, the nil IP
when neither separator occurs.  The IPv6 parser (a `':'` first) is not
modelled and is mapped to the nil IP; theorems that depend on a failed parse
carry a hypothesis excluding that unmodelled branch. -/
def parseIP (s : String) : GoIP :=
  match firstSep s.data with
  | some '.' => parseIPv4 s
  | _ => GoIP.nil

/-- Annotation key both variants read from each node. -/
def calicoKey : String := "projectcalico.org/IPv4Address"

/-- Inventory member (a cluster node): its annotations map, modelled as an
association list. -/
structure Member where
  anns : List (String × String)
deriving DecidableEq

/-- Go `val.Annotations["projectcalico.org/IPv4Address"]` map access. -/
def lookupAnn (m : Member) : Option String := m.anns.lookup calicoKey

/-- Shared node loop of both `getKubeNodes` functions: for each member whose
calico annotation is present, parse the part before the first `/` with
`net.ParseIP` and append the result (even when it is the nil IP); members
without the annotation are skipped. -/
def extractIPs : List Member → List GoIP
  | [] => []
  | m :: rest =>
    match lookupAnn m with
    | some strIP => parseIP (goSplitHead strIP) :: extractIPs rest
    | none => extractIPs rest

/-- Nested loop of `isDiff`: for each `v` in `oldHosts` scan `newHosts` for a
`k` with `v.String() == k.String()`, incrementing `matches` and breaking at
the first hit; a scan with a break at the first match counts `1` exactly when
some element matches. -/
def countMatches (oldHosts newHosts : List GoIP) : Nat :=
  oldHosts.foldl
    (fun m v => if newHosts.any (fun k => v.string == k.string) then m + 1 else m) 0

/-- The function `isDiff(oldHosts, newHosts []net.IP) bool`, identical in both
files: `true` when the lengths differ, or when the match count (members of
`oldHosts` having an exact `String()` match in `newHosts`) differs from
`len(newHosts)`. -/
def isDiff (oldHosts newHosts : List GoIP) : Bool :=
  if newHosts.length ≠ oldHosts.length then true
  else if countMatches oldHosts newHosts ≠ newHosts.length then true
  else false

/-- The spec-level `Changed(previous, current)` operation as the loop invokes
it: both `main` functions keep the retained snapshot in `oldHosts` and call
`isDiff(newHosts, oldHosts)` on a fresh fetch `newHosts`, i.e. the differ is
applied as `isDiff(current, previous)`. -/
def Changed (previous current : List GoIP) : Bool := isDiff current previous

/-- Start marker line of the generated region of the UFW rules file. -/
def ufwStartMarker : String := "### RULES ###"

/-- End marker line of the generated region of the UFW rules file. -/
def ufwEndMarker : String := "### END RULES ###"

/-- Hard coded rule block returned by `fixedRules()` in the UFW variant. -/
def fixedRules : List String :=
  ["",
   "### tuple ### allow any 22 0.0.0.0/0 any 0.0.0.0/0 in",
   "-A ufw-user-input -p tcp --dport 22 -j ACCEPT",
   "-A ufw-user-input -p udp --dport 22 -j ACCEPT",
   ""]

/-- Generated rule lines of `buildUFW`: for each address `n` in order, an
allow-annotation line and an accept directive (both through `n.String()`),
then a blank separator line. -/
def genRules : List GoIP → List String
  | [] => []
  | n :: rest =>
      ("### tuple ### allow tcp 27017 0.0.0.0/0 any " ++ n.string ++ " in")
      :: ("-A ufw-user-input -p tcp --dport 27017 -s " ++ n.string ++ " -j ACCEPT")
      :: "" :: genRules rest

/-- Scanner loop of `buildUFW` over the existing file's lines, carrying the
`blnStart`/`blnEnd` flags.  Per line, in the order of the Go body: append the
line to `startConfig` when `blnStart` is still false, set `blnStart` on the
start marker, set `blnEnd` on the end marker, then append the line to
`endConfig` when (the updated) `blnEnd` holds.  Returns
`(startConfig, endConfig)`. -/
def scanRegions : List String → Bool → Bool → List String × List String
  | [], _, _ => ([], [])
  | line :: rest, blnStart, blnEnd =>
    let sPart : List String := if blnStart then [] else [line]
    let blnStart2 := if line = ufwStartMarker then true else blnStart
    let blnEnd2 := if line = ufwEndMarker then true else blnEnd
    let ePart : List String := if blnEnd2 then [line] else []
    let r := scanRegions rest blnStart2 blnEnd2
    (sPart ++ r.1, ePart ++ r.2)

/-- The function `buildUFW(ipList, rules)`.  Its file access is made explicit:
`fileLines` is `none` when `os.Open` fails — in that case the function
returns the still-empty `totalConfig` — and otherwise the lines the scanner
yields.  On success the result is `startConfig ++ (fixedRules ++ generated)
++ endConfig`. -/
def buildUFW (fileLines : Option (List String)) (ipList : List GoIP) : List String :=
  match fileLines with
  | none => []
  | some lines =>
    let r := scanRegions lines false false
    r.1 ++ (fixedRules ++ genRules ipList) ++ r.2

/-- Content written for a list of lines: each line newline-terminated, in
order (`WriteString(data + "\n")` resp. `Fprintln`). -/
def renderLines (lines : List String) : String :=
  String.join (lines.map (fun l => l ++ "\n"))

/-- The function `writeUFW(ufwConfig, rules)` as a file-content transformer:
the file is opened with `O_CREATE|O_WRONLY` — created when absent but NOT
truncated — so the rendered bytes overwrite the front of the previous content
and any previous characters beyond the written length survive. -/
def writeUFWFile (oldContent : String) (ufwConfig : List String) : String :=
  let s := renderLines ufwConfig
  s ++ String.mk (oldContent.data.drop s.data.length)

/-- The function `writeNginx(ngixConfig, config)` as a file-content
transformer: `os.Create` truncates, so the new content is exactly the
rendered lines. -/
def writeNginxFile (ngixConfig : List String) : String := renderLines ngixConfig

/-- Statically configured upstream groups of `buildNginx`, in the order the
Go code appends them to its `upstreams` slice. -/
def upstreams : List (String × Nat) :=
  [("diy", 32016), ("dockerui", 32018), ("tryingadventure", 32020),
   ("devops", 32021), ("monitor", 32699)]

/-- One server entry, `fmt.Sprintf("server %s:%d weight=100;", i, port)`
with `%s` on a `net.IP` printing its `String()` form. -/
def serverLine (i : GoIP) (port : Nat) : String :=
  "server " ++ i.string ++ ":" ++ toString port ++ " weight=100;"

/-- The function `buildNginx(ipList)`: the nested loops over the groups and
the addresses, accumulating into `totalConfig`. -/
def buildNginx (ipList : List GoIP) : List String :=
  upstreams.foldl
    (fun acc k =>
      (acc ++ ["upstream " ++ k.1 ++ " \x7b"])
        ++ ipList.map (fun i => serverLine i k.2) ++ ["\x7d"]) []

/-- Closed form of one upstream block: opening line, one server entry per
address in input order, closing line. -/
def upstreamBlock (name : String) (port : Nat) (ipList : List GoIP) : List String :=
  ("upstream " ++ name ++ " \x7b") :: (ipList.map (fun i => serverLine i port) ++ ["\x7d"])

/-- Outcome of the UFW variant's `getKubeNodes`: although its Go signature is
`([]net.IP, error)`, every failure of the three fallible steps (building the
client config, creating the clientset, listing nodes) executes
`panic(err.Error())`, so the error result is always nil and the only outcomes
are a successful list or a panic. -/
inductive UFWFetch where
  | ok (ips : List GoIP)
  | panicked (msg : String)
deriving DecidableEq

/-- The UFW variant's `getKubeNodes`, with the combined result of its three
fallible external steps made an explicit argument. -/
def getKubeNodesUFW (query : Except String (List Member)) : UFWFetch :=
  match query with
  | Except.error e => UFWFetch.panicked e
  | Except.ok items => UFWFetch.ok (extractIPs items)

/-- The nginx variant's `getKubeNodes`: the same three fallible steps return
`(results, err)` to the caller instead of panicking. -/
def getKubeNodesNginx (query : Except String (List Member)) : Except String (List GoIP) :=
  match query with
  | Except.error e => Except.error e
  | Except.ok items => Except.ok (extractIPs items)

/-- Observable outcome of one pass of the nginx variant's loop body. -/
structure NCycleOut where
  prevAfter : List GoIP
  fileAfter : Option String
  rendered : Bool
  reloaded : Bool
deriving DecidableEq

/-- One pass of the nginx variant's loop body (`main`, the anonymous goroutine):
on a fetch error, log and `continue` — `oldHosts` keeps its value and nothing
is rendered, written or reloaded; otherwise, when `isDiff(newHosts, oldHosts)`
holds, build the config, call `writeNginx` (which returns nothing: on a failed
`os.Create`, modelled by `createOk = false`, the error is only logged and the
file keeps its previous content), and afterwards unconditionally call
`NginxReload`. -/
def nginxCycle (prev : List GoIP) (query : Except String (List Member))
    (createOk : Bool) (file : Option String) : NCycleOut :=
  match getKubeNodesNginx query with
  | Except.error _ => ⟨prev, file, false, false⟩
  | Except.ok newHosts =>
    if isDiff newHosts prev then
      ⟨newHosts, if createOk then some (writeNginxFile (buildNginx newHosts)) else file,
       true, true⟩
    else ⟨newHosts, file, false, false⟩

/-- Observable outcome of one pass of the UFW variant's loop body. -/
structure UFWCycleOut where
  prevAfter : List GoIP
  fileAfter : String
  rendered : Bool
  reloaded : Bool
deriving DecidableEq

/-- One pass of the UFW variant's loop body for a successful fetch (a failed
fetch panics, see `getKubeNodesUFW`; the returned error is discarded with
`_`).  When `isDiff(newHosts, oldHosts)` holds, `buildUFW` runs (reading
`fileLines`), `writeUFW` runs (returning nothing: a failed `OpenFile`,
modelled by `openOk = false`, is only logged and the file keeps its content),
and `UFWReload` is then called unconditionally. -/
def ufwCycle (prev : List GoIP) (items : List Member)
    (fileLines : Option (List String)) (openOk : Bool) (oldContent : String) :
    UFWCycleOut :=
  let newHosts := extractIPs items
  if isDiff newHosts prev then
    ⟨newHosts,
     if openOk then writeUFWFile oldContent (buildUFW fileLines newHosts) else oldContent,
     true, true⟩
  else ⟨newHosts, oldContent, false, false⟩

/-- Membership predicate of the inner `isDiff` scan. -/
def hasMatch (hosts : List GoIP) (v : GoIP) : Bool :=
  hosts.any (fun k => v.string == k.string)

theorem foldl_count (p : GoIP → Bool) (l : List GoIP) :
    ∀ n : Nat, l.foldl (fun m v => if p v then m + 1 else m) n = n + l.countP p := by
  induction l with
  | nil => intro n; simp [List.countP_nil]
  | cons a t ih =>
    intro n
    by_cases h : p a = true
    · simp only [List.foldl_cons, h, if_pos, ih, List.countP_cons, if_true]
      omega
    · simp [List.foldl_cons, h, ih, List.countP_cons]

theorem countMatches_eq_countP (oldHosts newHosts : List GoIP) :
    countMatches oldHosts newHosts = oldHosts.countP (hasMatch newHosts) := by
  unfold countMatches hasMatch
  simpa using foldl_count (fun v => newHosts.any (fun k => v.string == k.string)) oldHosts 0

theorem hasMatch_iff (hosts : List GoIP) (v : GoIP) :
    hasMatch hosts v = true ↔ ∃ k ∈ hosts, v.string = k.string := by
  simp [hasMatch]

/-- Characterisation of `isDiff`: true exactly when the lengths differ or
some member of the FIRST argument (`oldHosts`) has no exact `String()` match
in the second (`newHosts`). -/
theorem isDiff_true_iff (oldHosts newHosts : List GoIP) :
    isDiff oldHosts newHosts = true ↔
      (oldHosts.length ≠ newHosts.length ∨
        ∃ v ∈ oldHosts, ∀ k ∈ newHosts, v.string ≠ k.string) := by
  unfold isDiff
  by_cases hlen : newHosts.length = oldHosts.length
  · rw [if_neg (not_not_intro hlen), countMatches_eq_countP]
    by_cases hc : oldHosts.countP (hasMatch newHosts) = newHosts.length
    · rw [if_neg (not_not_intro hc)]
      have hall : ∀ v ∈ oldHosts, hasMatch newHosts v = true := by
        rw [← List.countP_eq_length]
        omega
      simp only [Bool.false_eq_true, false_iff]
      push_neg
      refine ⟨hlen.symm, ?_⟩
      intro v hv
      rcases (hasMatch_iff newHosts v).mp (hall v hv) with ⟨k, hk, hks⟩
      exact ⟨k, hk, hks⟩
    · rw [if_pos hc]
      simp only [true_iff]
      right
      have hnall : ¬ ∀ v ∈ oldHosts, hasMatch newHosts v = true := by
        rw [← List.countP_eq_length]
        have hle := List.countP_le_length (p := hasMatch newHosts) (l := oldHosts)
        omega
      push_neg at hnall
      rcases hnall with ⟨v, hv, hvn⟩
      refine ⟨v, hv, ?_⟩
      intro k hk hks
      exact hvn ((hasMatch_iff newHosts v).mpr ⟨k, hk, hks⟩)
  · rw [if_pos hlen]
    simp only [true_iff]
    left
    exact fun h => hlen h.symm

/-- C1: `Changed(previous, current)` — the differ as the reconciliation loop
invokes it (`isDiff(newHosts, oldHosts)` with `oldHosts` the retained
snapshot) — is true exactly when the lengths differ or some member of
`current` has no exact match, by canonical string form, in `previous`. -/
theorem Changed_spec_iff (previous current : List GoIP) :
    Changed previous current = true ↔
      (previous.length ≠ current.length ∨
        ∃ c ∈ current, ∀ p ∈ previous, c.string ≠ p.string) := by
  unfold Changed
  rw [isDiff_true_iff]
  constructor
  · rintro (h | h)
    · exact Or.inl (fun hh => h hh.symm)
    · exact Or.inr h
  · rintro (h | h)
    · exact Or.inl (fun hh => h hh.symm)
    · exact Or.inr h

/-- C8: the differ detects no change between a list and itself — every member
matches itself by string form — including the empty list and lists with
duplicates. -/
theorem Changed_self_false (A : List GoIP) : Changed A A = false := by
  cases hb : Changed A A with
  | false => rfl
  | true =>
    exfalso
    rcases (Changed_spec_iff A A).mp hb with h | ⟨c, hc, hall⟩
    · exact h rfl
    · exact hall c hc rfl

theorem bool_eq_of_iff (a b : Bool) (h : a = true ↔ b = true) : a = b := by
  cases a <;> cases b <;> simp_all

theorem subset_swap_of_nodup (l₁ l₂ : List String)
    (h₁ : l₁.Nodup) (h₂ : l₂.Nodup) (hlen : l₁.length = l₂.length)
    (hsub : l₁ ⊆ l₂) : l₂ ⊆ l₁ := by
  have hfin : l₁.toFinset ⊆ l₂.toFinset := by
    intro a ha
    rw [List.mem_toFinset] at *
    exact hsub ha
  have hc1 : l₁.toFinset.card = l₁.length := List.toFinset_card_of_nodup h₁
  have hc2 : l₂.toFinset.card = l₂.length := List.toFinset_card_of_nodup h₂
  have heq : l₁.toFinset = l₂.toFinset :=
    Finset.eq_of_subset_of_card_le hfin (by omega)
  intro x hx
  have : x ∈ l₁.toFinset := heq ▸ List.mem_toFinset.mpr hx
  exact List.mem_toFinset.mp this

/-- All members of `a` have a string match in `b` exactly when the string
image of `a` is a sublist-subset of the string image of `b`. -/
theorem allMatch_iff_subset (a b : List GoIP) :
    (∀ v ∈ a, ∃ k ∈ b, v.string = k.string) ↔
      (a.map GoIP.string) ⊆ (b.map GoIP.string) := by
  constructor
  · intro h x hx
    rcases List.mem_map.mp hx with ⟨v, hv, rfl⟩
    rcases h v hv with ⟨k, hk, hks⟩
    exact List.mem_map.mpr ⟨k, hk, hks.symm⟩
  · intro h v hv
    have : v.string ∈ b.map GoIP.string := h (List.mem_map.mpr ⟨v, hv, rfl⟩)
    rcases List.mem_map.mp this with ⟨k, hk, hks⟩
    exact ⟨k, hk, hks.symm⟩

/-- C6 (amended): when neither list repeats a canonical string, the change
test is symmetric. -/
theorem Changed_symm_nodup (A B : List GoIP)
    (hA : (A.map GoIP.string).Nodup) (hB : (B.map GoIP.string).Nodup) :
    Changed A B = Changed B A := by
  apply bool_eq_of_iff
  rw [Changed_spec_iff, Changed_spec_iff]
  by_cases hlen : A.length = B.length
  · have hmaplen : (A.map GoIP.string).length = (B.map GoIP.string).length := by
      simp [hlen]
    have hAB : ((A.map GoIP.string) ⊆ (B.map GoIP.string)) →
        ((B.map GoIP.string) ⊆ (A.map GoIP.string)) :=
      subset_swap_of_nodup _ _ hA hB hmaplen
    have hBA : ((B.map GoIP.string) ⊆ (A.map GoIP.string)) →
        ((A.map GoIP.string) ⊆ (B.map GoIP.string)) :=
      subset_swap_of_nodup _ _ hB hA hmaplen.symm
    constructor
    · rintro (h | ⟨c, hc, hall⟩)
      · exact absurd hlen h
      · right
        by_contra hno
        push_neg at hno
        have hsub : (A.map GoIP.string) ⊆ (B.map GoIP.string) := by
          rw [← allMatch_iff_subset]
          intro v hv
          rcases hno v hv with ⟨k, hk, hks⟩
          exact ⟨k, hk, hks⟩
        rcases (allMatch_iff_subset B A).mpr (hAB hsub) c hc with ⟨k, hk, hks⟩
        exact hall k hk hks
    · rintro (h | ⟨c, hc, hall⟩)
      · exact absurd hlen.symm h
      · right
        by_contra hno
        push_neg at hno
        have hsub : (B.map GoIP.string) ⊆ (A.map GoIP.string) := by
          rw [← allMatch_iff_subset]
          intro v hv
          rcases hno v hv with ⟨k, hk, hks⟩
          exact ⟨k, hk, hks⟩
        rcases (allMatch_iff_subset A B).mpr (hBA hsub) c hc with ⟨k, hk, hks⟩
        exact hall k hk hks
  · constructor
    · intro _; exact Or.inl (fun h => hlen h.symm)
    · intro _; exact Or.inl hlen

/-- C6 (counterexample): with a duplicated address the change test is not
symmetric — `Changed({10.0.0.1, 10.0.0.1}, {10.0.0.1, 10.0.0.2})` is true but
the swapped call is false, because the membership scan runs over only one of
the two lists. -/
theorem Changed_not_symm_cex :
    Changed [GoIP.v4 10 0 0 1, GoIP.v4 10 0 0 1] [GoIP.v4 10 0 0 1, GoIP.v4 10 0 0 2] = true
    ∧ Changed [GoIP.v4 10 0 0 1, GoIP.v4 10 0 0 2] [GoIP.v4 10 0 0 1, GoIP.v4 10 0 0 1] = false := by
  exact ⟨by decide, by decide⟩

/-- C6 (witness): the amended symmetry theorem applied at the duplicate-free
lists `{10.0.0.1}` and `{10.0.0.2}`. -/
theorem Changed_symm_nodup_witness :
    ([GoIP.v4 10 0 0 1].map GoIP.string).Nodup ∧
    ([GoIP.v4 10 0 0 2].map GoIP.string).Nodup ∧
    Changed [GoIP.v4 10 0 0 1] [GoIP.v4 10 0 0 2]
      = Changed [GoIP.v4 10 0 0 2] [GoIP.v4 10 0 0 1] :=
  ⟨by decide, by decide, Changed_symm_nodup _ _ (by decide) (by decide)⟩

/-- C4 (counterexample): in the UFW variant, a failed inventory query does not
surface as a returned error — `getKubeNodes` panics (every fallible step is
wrapped in `panic(err.Error())`), so the claim that the fetch returns an
error rather than panicking fails on this variant. -/
theorem ufw_fetch_panics_cex :
    getKubeNodesUFW (Except.error "connection refused")
      = UFWFetch.panicked "connection refused" := rfl

/-- C4 (amended): the nginx variant's `getKubeNodes` reports a failed query
by returning the error, and on such an error its loop `continue`s — the
previous snapshot is retained unchanged and no render, write, or reload
happens that cycle; the UFW variant's `getKubeNodes` instead panics on the
same failure. -/
theorem fetch_error_handling (prev : List GoIP) (e : String)
    (createOk : Bool) (file : Option String) :
    getKubeNodesNginx (Except.error e) = Except.error e
    ∧ nginxCycle prev (Except.error e) createOk file = ⟨prev, file, false, false⟩
    ∧ getKubeNodesUFW (Except.error e) = UFWFetch.panicked e :=
  ⟨rfl, rfl, rfl⟩

/-- C3 (counterexample): a cycle of the UFW variant in which the change is
detected and the write fails (`openOk = false`, the file keeps its previous
content `"pre"`) still reloads: `writeUFW` returns nothing and `UFWReload`
follows it unconditionally. -/
theorem reload_after_failed_write_cex :
    ufwCycle [] [Member.mk [(calicoKey, "10.0.0.1")]] none false "pre"
      = ⟨[GoIP.v4 10 0 0 1], "pre", true, true⟩ := by decide

/-- C3 (amended): in both variants the reload is triggered exactly when the
change test fires, regardless of whether the artifact write succeeded —
neither writer returns an error to its caller, so a failed write (the
`openOk`/`createOk` flag) is only logged and never suppresses the reload. -/
theorem reload_unconditional (prev : List GoIP) (items : List Member)
    (fileLines : Option (List String)) (openOk : Bool) (oldContent : String)
    (createOk : Bool) (file : Option String) :
    (ufwCycle prev items fileLines openOk oldContent).reloaded
        = isDiff (extractIPs items) prev
    ∧ (nginxCycle prev (Except.ok items) createOk file).reloaded
        = isDiff (extractIPs items) prev := by
  constructor
  · unfold ufwCycle
    cases h : isDiff (extractIPs items) prev <;> simp [h]
  · unfold nginxCycle getKubeNodesNginx
    cases h : isDiff (extractIPs items) prev <;> simp [h]

/-- C5 (code evaluated at the failing input): `writeUFW` opens with
`O_CREATE|O_WRONLY` and no `O_TRUNC`, so writing the single line `"a"` over a
previous content `"0123456789\n"` leaves the stale tail `"23456789\n"` behind
instead of producing exactly the rendered lines; `writeNginx` (`os.Create`)
does truncate. -/
theorem writeUFW_stale_bytes :
    writeUFWFile "0123456789\n" ["a"] = "a\n23456789\n"
    ∧ writeUFWFile "0123456789\n" ["a"] ≠ renderLines ["a"]
    ∧ writeNginxFile ["a"] = renderLines ["a"] :=
  ⟨by decide, by decide, rfl⟩

/-- C7 (counterexample): when the existing rules file cannot be read,
`buildUFW` returns the still-empty `totalConfig` — not the static rules
followed by the generated rules — so the cycle's rendering yields an empty
artifact instead of degrading to empty preserved regions. -/
theorem buildUFW_read_failure_cex :
    buildUFW none [GoIP.v4 10 0 0 1] = []
    ∧ buildUFW none [GoIP.v4 10 0 0 1]
        ≠ fixedRules ++ genRules [GoIP.v4 10 0 0 1] :=
  ⟨rfl, by decide⟩

/-- C7 (amended): if the existing firewall artifact cannot be read
(`os.Open` fails), `buildUFW` returns the empty line list for every address
list — no fixed static rules and no generated rules are emitted. -/
theorem buildUFW_read_failure_empty (ipList : List GoIP) :
    buildUFW none ipList = [] := rfl

theorem scanRegions_no_markers (p rest : List String)
    (h1 : ufwStartMarker ∉ p) (h2 : ufwEndMarker ∉ p) :
    scanRegions (p ++ rest) false false =
      (p ++ (scanRegions rest false false).1, (scanRegions rest false false).2) := by
  induction p with
  | nil => simp
  | cons l t ih =>
    have hl1 : ¬ (l = ufwStartMarker) := fun h => h1 (h ▸ List.mem_cons_self l t)
    have hl2 : ¬ (l = ufwEndMarker) := fun h => h2 (h ▸ List.mem_cons_self l t)
    have ht1 : ufwStartMarker ∉ t := fun h => h1 (List.mem_cons_of_mem l h)
    have ht2 : ufwEndMarker ∉ t := fun h => h2 (List.mem_cons_of_mem l h)
    simp only [List.cons_append, scanRegions, hl1, hl2, if_false]
    simp [ih ht1 ht2]

theorem scanRegions_between (mid rest : List String)
    (h : ufwEndMarker ∉ mid) :
    scanRegions (mid ++ rest) true false = scanRegions rest true false := by
  induction mid with
  | nil => simp
  | cons l t ih =>
    have hl : ¬ (l = ufwEndMarker) := fun hh => h (hh ▸ List.mem_cons_self l t)
    have ht : ufwEndMarker ∉ t := fun hh => h (List.mem_cons_of_mem l hh)
    simp only [List.cons_append, scanRegions, hl, if_false, if_true]
    simp [ih ht]

theorem scanRegions_tail (l : List String) :
    scanRegions l true true = ([], l) := by
  induction l with
  | nil => simp [scanRegions]
  | cons x t ih =>
    simp only [scanRegions, if_true]
    by_cases hx1 : x = ufwStartMarker <;> by_cases hx2 : x = ufwEndMarker <;>
      simp [hx1, hx2, ih]

/-- C2: on a file whose lines hold the start marker once (and no end marker
before it) followed by the end marker once, `buildUFW` keeps everything up to
and including the start marker and everything from the end marker onward
byte-identical, replacing only the lines strictly between the markers with
the fixed static rules followed by the generated rules. -/
theorem buildUFW_preserved_regions (p mid s : List String) (ips : List GoIP)
    (h1 : ufwStartMarker ∉ p) (h2 : ufwEndMarker ∉ p) (h3 : ufwEndMarker ∉ mid) :
    buildUFW (some (p ++ [ufwStartMarker] ++ mid ++ [ufwEndMarker] ++ s)) ips =
      (p ++ [ufwStartMarker]) ++ (fixedRules ++ genRules ips) ++ ([ufwEndMarker] ++ s) := by
  have hms : ¬ (ufwStartMarker = ufwEndMarker) := by decide
  have key : scanRegions (p ++ [ufwStartMarker] ++ mid ++ [ufwEndMarker] ++ s) false false
      = (p ++ [ufwStartMarker], [ufwEndMarker] ++ s) := by
    have hshape : p ++ [ufwStartMarker] ++ mid ++ [ufwEndMarker] ++ s
        = p ++ (ufwStartMarker :: (mid ++ (ufwEndMarker :: s))) := by
      simp [List.append_assoc]
    rw [hshape, scanRegions_no_markers p _ h1 h2]
    have hstart : scanRegions (ufwStartMarker :: (mid ++ (ufwEndMarker :: s))) false false
        = ([ufwStartMarker] ++ (scanRegions (mid ++ (ufwEndMarker :: s)) true false).1,
           (scanRegions (mid ++ (ufwEndMarker :: s)) true false).2) := by
      simp [scanRegions, hms]
    have hmid : scanRegions (mid ++ (ufwEndMarker :: s)) true false
        = scanRegions (ufwEndMarker :: s) true false := scanRegions_between mid _ h3
    have hend : scanRegions (ufwEndMarker :: s) true false = ([], ufwEndMarker :: s) := by
      simp [scanRegions, scanRegions_tail]
    rw [hstart, hmid, hend]
    simp
  have key2 := key
  simp only [List.append_assoc, List.cons_append, List.singleton_append,
    List.nil_append] at key2
  simp [buildUFW, key2, List.append_assoc]

/-- C2 (witness): the preserved-regions theorem at a concrete one-line
prefix, middle and suffix with the single address `10.0.0.1`. -/
theorem buildUFW_preserved_regions_witness :
    (ufwStartMarker ∉ ["# head"] ∧ ufwEndMarker ∉ ["# head"] ∧ ufwEndMarker ∉ ["old rule"]) ∧
    buildUFW (some (["# head"] ++ [ufwStartMarker] ++ ["old rule"] ++ [ufwEndMarker] ++ ["# tail"]))
        [GoIP.v4 10 0 0 1]
      = (["# head"] ++ [ufwStartMarker]) ++ (fixedRules ++ genRules [GoIP.v4 10 0 0 1])
          ++ ([ufwEndMarker] ++ ["# tail"]) :=
  ⟨⟨by decide, by decide, by decide⟩,
   buildUFW_preserved_regions _ _ _ _ (by decide) (by decide) (by decide)⟩

/-- C9: `buildNginx` emits, for each statically configured upstream group in
order, the opening line `upstream <name> \x7b`, then exactly one line
`server <address>:<port> weight=100;` per address in input iteration order at
that group's port, then the closing line `\x7d`. -/
theorem buildNginx_blocks (ipList : List GoIP) :
    buildNginx ipList =
      upstreamBlock "diy" 32016 ipList ++ upstreamBlock "dockerui" 32018 ipList
        ++ upstreamBlock "tryingadventure" 32020 ipList
        ++ upstreamBlock "devops" 32021 ipList
        ++ upstreamBlock "monitor" 32699 ipList := by
  simp [buildNginx, upstreams, upstreamBlock, List.append_assoc]

theorem extractIPs_append (a b : List Member) :
    extractIPs (a ++ b) = extractIPs a ++ extractIPs b := by
  induction a with
  | nil => simp [extractIPs]
  | cons m t ih =>
    cases h : lookupAnn m <;> simp [extractIPs, h, ih]

theorem genRules_append (a b : List GoIP) :
    genRules (a ++ b) = genRules a ++ genRules b := by
  induction a with
  | nil => simp [genRules]
  | cons n t ih => simp [genRules, ih]

/-- C10: a member whose calico annotation is present but whose value fails to
parse (within the modelled, colon-free domain of `net.ParseIP`) is not
skipped by the node loop — the nil parse result is appended in place — and
the UFW renderer then emits the accept directive with the literal `<nil>` as
its source address. -/
theorem getKubeNodes_keeps_nil (pre post : List Member) (m : Member) (v : String)
    (hv : lookupAnn m = some v)
    (hsep : firstSep (goSplitHead v).data ≠ some ':')
    (hp : parseIP (goSplitHead v) = GoIP.nil) :
    getKubeNodesNginx (Except.ok (pre ++ m :: post))
        = Except.ok (extractIPs pre ++ GoIP.nil :: extractIPs post)
    ∧ "-A ufw-user-input -p tcp --dport 27017 -s <nil> -j ACCEPT"
        ∈ genRules (extractIPs (pre ++ m :: post)) := by
  have hext : extractIPs (pre ++ m :: post)
      = extractIPs pre ++ GoIP.nil :: extractIPs post := by
    rw [extractIPs_append]
    simp [extractIPs, hv, hp]
  constructor
  · simp [getKubeNodesNginx, hext]
  · rw [hext, genRules_append]
    apply List.mem_append_right
    exact List.mem_cons_of_mem _ (List.mem_cons_self _ _)

/-- C10 (witness): the annotation value `"not-an-ip"` parses to the nil IP
and is kept and rendered as `<nil>`. -/
theorem getKubeNodes_keeps_nil_witness :
    (lookupAnn (Member.mk [(calicoKey, "not-an-ip")]) = some "not-an-ip"
      ∧ parseIP (goSplitHead "not-an-ip") = GoIP.nil) ∧
    getKubeNodesNginx (Except.ok ([] ++ Member.mk [(calicoKey, "not-an-ip")] :: []))
        = Except.ok (extractIPs [] ++ GoIP.nil :: extractIPs [])
    ∧ "-A ufw-user-input -p tcp --dport 27017 -s <nil> -j ACCEPT"
        ∈ genRules (extractIPs ([] ++ Member.mk [(calicoKey, "not-an-ip")] :: [])) :=
  ⟨⟨by decide, by decide⟩,
   getKubeNodes_keeps_nil [] [] _ "not-an-ip" (by decide) (by decide) (by decide)⟩
